import Mathlib

/-!
Verification of the hub dispatch layer (`internal/hub/hub.go`) and the date
endpoint (`internal/date/date.go`) of the kavehmz hub service.

The Go code is shallowly embedded: pure helpers become Lean functions, the
HTTP handlers become functions from a request model (query parameters plus
the capability's behaviour) to the sequence of writes/flushes they perform,
and the unbuffered relay channel of the streaming path becomes a small
labelled transition system.  Machine integers are modelled as `Int`
(Go `int`); none of the verified properties depends on 64-bit overflow.
-/

/-- Model of a Go JSON value as produced by `json.Unmarshal` into
`interface{}`.  Numbers keep their literal token (Go decodes them to
`float64`; no property verified here depends on numeric re-formatting).
Objects are association lists; Go's `map[string]interface{}` is unordered
and `json.Marshal` sorts keys, but every object appearing in the verified
properties has at most one key, where the two renderings agree. -/
inductive Json where
  | null : Json
  | bool (b : Bool) : Json
  | num (tok : String) : Json
  | str (s : String) : Json
  | arr (xs : List Json) : Json
  | obj (ms : List (String × Json)) : Json
deriving Repr

/-- JSON insignificant whitespace, as accepted by Go's scanner
(space, tab, newline, carriage return). -/
def skipWs : List Char → List Char
  | [] => []
  | c :: rest =>
    if c = ' ' ∨ c = '\t' ∨ c = '\n' ∨ c = '\r' then skipWs rest else c :: rest

/-- Value of a hexadecimal digit, for `\uXXXX` escapes. -/
def hexVal (c : Char) : Option Nat :=
  if '0' ≤ c ∧ c ≤ '9' then some (c.toNat - '0'.toNat)
  else if 'a' ≤ c ∧ c ≤ 'f' then some (c.toNat - 'a'.toNat + 10)
  else if 'A' ≤ c ∧ c ≤ 'F' then some (c.toNat - 'A'.toNat + 10)
  else none

/-- Body of a JSON string literal (opening quote already consumed):
returns the decoded characters and the input after the closing quote.
Go rejects raw control characters and malformed escapes.  Surrogate-pair
recombination in `\u` escapes is not modelled (no verified property uses
non-BMP escapes). -/
def strChars : List Char → Option (List Char × List Char)
  | [] => none
  | c :: rest =>
    if c = '"' then some ([], rest)
    else if c = '\\' then
      match rest with
      | [] => none
      | e :: rest2 =>
        if e = '"' ∨ e = '\\' ∨ e = '/' then
          (strChars rest2).map (fun p => (e :: p.1, p.2))
        else if e = 'b' then (strChars rest2).map (fun p => ('\x08' :: p.1, p.2))
        else if e = 'f' then (strChars rest2).map (fun p => ('\x0c' :: p.1, p.2))
        else if e = 'n' then (strChars rest2).map (fun p => ('\n' :: p.1, p.2))
        else if e = 'r' then (strChars rest2).map (fun p => ('\r' :: p.1, p.2))
        else if e = 't' then (strChars rest2).map (fun p => ('\t' :: p.1, p.2))
        else if e = 'u' then
          match rest2 with
          | h1 :: h2 :: h3 :: h4 :: rest3 =>
            match hexVal h1, hexVal h2, hexVal h3, hexVal h4 with
            | some a, some b, some c3, some d =>
              (strChars rest3).map
                (fun p => (Char.ofNat (((a * 16 + b) * 16 + c3) * 16 + d) :: p.1, p.2))
            | _, _, _, _ => none
          | _ => none
        else none
    else if c.toNat < 0x20 then none
    else (strChars rest).map (fun p => (c :: p.1, p.2))
termination_by l => l.length
decreasing_by all_goals simp_all <;> omega

/-- Longest prefix of decimal digits and the rest. -/
def spanDigits : List Char → List Char × List Char
  | [] => ([], [])
  | c :: rest =>
    if c.isDigit then
      let p := spanDigits rest
      (c :: p.1, p.2)
    else ([], c :: rest)

/-- JSON number token per the JSON grammar Go enforces
(`-? (0 | [1-9][0-9]*) (. [0-9]+)? ([eE][+-]?[0-9]+)?`); returns the
literal token and the remaining input. -/
def numToken (l : List Char) : Option (List Char × List Char) :=
  let (sign, l1) : List Char × List Char :=
    match l with
    | '-' :: r => (['-'], r)
    | _ => ([], l)
  match l1 with
  | [] => none
  | c :: r =>
    if c = '0' then intRest sign ['0'] r
    else if c.isDigit then
      let p := spanDigits r
      intRest sign (c :: p.1) p.2
    else none
where
  /-- Optional fraction and exponent after the integer part. -/
  intRest (sign ip : List Char) (r : List Char) : Option (List Char × List Char) :=
    let fr : Option (List Char × List Char) :=
      match r with
      | '.' :: r2 =>
        let p := spanDigits r2
        if p.1 = [] then none else some ('.' :: p.1, p.2)
      | _ => some ([], r)
    match fr with
    | none => none
    | some (fp, r3) =>
      let ex : Option (List Char × List Char) :=
        match r3 with
        | e :: r4 =>
          if e = 'e' ∨ e = 'E' then
            let (sgn, r5) : List Char × List Char :=
              match r4 with
              | s :: r6 => if s = '+' ∨ s = '-' then ([s], r6) else ([], r4)
              | [] => ([], r4)
            let p := spanDigits r5
            if p.1 = [] then none else some (e :: (sgn ++ p.1), p.2)
          else some ([], r3)
        | [] => some ([], r3)
      match ex with
      | none => none
      | some (ep, r7) => some (sign ++ ip ++ fp ++ ep, r7)

/-- Replace the value of a key if present (last duplicate wins, as for a
Go map), keeping the position of the later occurrence. -/
def hasKey (ms : List (String × Json)) (k : String) : Bool :=
  ms.any (fun m => m.1 = k)

mutual

/-- One JSON value, fuel-bounded (the fuel only bounds recursion depth per
element; `Json.parse` supplies more fuel than any input can consume, so
running out of fuel coincides with malformed input). -/
def parseValue : Nat → List Char → Option (Json × List Char)
  | 0, _ => none
  | fuel + 1, l =>
    match skipWs l with
    | 'n' :: 'u' :: 'l' :: 'l' :: rest => some (.null, rest)
    | 't' :: 'r' :: 'u' :: 'e' :: rest => some (.bool true, rest)
    | 'f' :: 'a' :: 'l' :: 's' :: 'e' :: rest => some (.bool false, rest)
    | '"' :: rest =>
      (strChars rest).map (fun p => (.str (String.mk p.1), p.2))
    | '[' :: rest =>
      match skipWs rest with
      | ']' :: r2 => some (.arr [], r2)
      | l2 => (parseElems fuel l2).map (fun p => (.arr p.1, p.2))
    | '{' :: rest =>
      match skipWs rest with
      | '}' :: r2 => some (.obj [], r2)
      | l2 => (parseMembers fuel l2).map (fun p => (.obj p.1, p.2))
    | l2 => (numToken l2).map (fun p => (.num (String.mk p.1), p.2))

/-- Nonempty comma-separated array elements followed by the closing
bracket. -/
def parseElems : Nat → List Char → Option (List Json × List Char)
  | 0, _ => none
  | fuel + 1, l =>
    match parseValue fuel l with
    | none => none
    | some (v, rest) =>
      match skipWs rest with
      | ',' :: r2 =>
        (parseElems fuel r2).map (fun p => (v :: p.1, p.2))
      | ']' :: r2 => some ([v], r2)
      | _ => none

/-- Nonempty comma-separated object members followed by the closing brace.
A repeated key keeps the later value, as assignment into a Go map does. -/
def parseMembers : Nat → List Char → Option (List (String × Json) × List Char)
  | 0, _ => none
  | fuel + 1, l =>
    match skipWs l with
    | '"' :: rest =>
      match strChars rest with
      | none => none
      | some (kcs, r2) =>
        match skipWs r2 with
        | ':' :: r3 =>
          match parseValue fuel r3 with
          | none => none
          | some (v, r4) =>
            match skipWs r4 with
            | ',' :: r5 =>
              (parseMembers fuel r5).map
                (fun p =>
                  (if hasKey p.1 (String.mk kcs) then p.1
                   else (String.mk kcs, v) :: p.1, p.2))
            | '}' :: r5 => some ([(String.mk kcs, v)], r5)
            | _ => none
        | _ => none
    | _ => none

end

/-- Top-level parse, modelling `json.Unmarshal(b, &v)` for `v interface{}`:
the whole input (up to trailing whitespace) must be one valid JSON value;
the empty input is an error. -/
def Json.parse (s : String) : Option Json :=
  match parseValue (s.length + 2) s.data with
  | some (j, rest) => if skipWs rest = [] then some j else none
  | none => none

/-- Escape one character the way Go's `json.Marshal` renders string
contents: quote, backslash, the HTML-sensitive characters, control
characters and the Unicode line separators get escaped; everything else is
emitted verbatim (Go writes UTF-8 directly). -/
def jsonEscapeChar (c : Char) : String :=
  if c = '"' then "\\\""
  else if c = '\\' then "\\\\"
  else if c = '\n' then "\\n"
  else if c = '\r' then "\\r"
  else if c = '\t' then "\\t"
  else if c = '<' then "\\u003c"
  else if c = '>' then "\\u003e"
  else if c = '&' then "\\u0026"
  else if c.toNat < 0x20 then
    let hx : Nat → String := fun n =>
      String.mk [(Nat.digitChar (n / 16)), (Nat.digitChar (n % 16))]
    "\\u00" ++ hx c.toNat
  else if c.toNat = 0x2028 then "\\u2028"
  else if c.toNat = 0x2029 then "\\u2029"
  else String.mk [c]

/-- Render a string as a JSON string literal, as `json.Marshal` does. -/
def quoteStr (s : String) : String :=
  "\"" ++ String.join (s.data.map jsonEscapeChar) ++ "\""

mutual

/-- Serialize a value the way `json.Marshal` does (compact, no spaces).
Number tokens are emitted literally (see the note on `Json.num`). -/
def Json.render : Json → String
  | .null => "null"
  | .bool true => "true"
  | .bool false => "false"
  | .num tok => tok
  | .str s => quoteStr s
  | .arr xs => "[" ++ Json.renderList xs ++ "]"
  | .obj ms => "\x7b" ++ Json.renderMembers ms ++ "\x7d"

/-- Comma-separated rendering of array elements. -/
def Json.renderList : List Json → String
  | [] => ""
  | [x] => Json.render x
  | x :: rest => Json.render x ++ "," ++ Json.renderList rest

/-- Comma-separated rendering of object members. -/
def Json.renderMembers : List (String × Json) → String
  | [] => ""
  | [(k, v)] => quoteStr k ++ ":" ++ Json.render v
  | (k, v) :: rest => quoteStr k ++ ":" ++ Json.render v ++ "," ++ Json.renderMembers rest

end

/-- The success envelope `DataResponse` (hub.go lines 71-74) serialized by
`json.Marshal`: the wrapped value under the single key `data`. -/
def renderEnvelope (j : Json) : String :=
  "\x7b\"data\":" ++ Json.render j ++ "\x7d"

/-- Chunk wrapping on the single-shot path (hub.go lines 214-219):
`json.Unmarshal` the captured body; on failure fall back to the literal
body string. -/
def restWrapChunk (s : String) : Json :=
  match Json.parse s with
  | some j => j
  | none => .str s

/-- Chunk wrapping in the streaming draining loop (hub.go lines 270-275):
`json.Unmarshal` the relayed chunk; on failure fall back to the literal
chunk string. -/
def sseWrapChunk (s : String) : Json :=
  match Json.parse s with
  | some j => j
  | none => .str s

/-- Whitespace skipped by `fmt`'s scanner before a `%d` verb (ASCII
whitespace; the full Unicode space set never matters for decimal input). -/
def skipScanWs : List Char → List Char
  | [] => []
  | c :: rest =>
    if c = ' ' ∨ c = '\t' ∨ c = '\n' ∨ c = '\r' ∨ c = '\x0b' ∨ c = '\x0c'
    then skipScanWs rest
    else c :: rest

/-- Numeric value of a nonempty digit prefix; `none` when the input does
not start with a digit. -/
def digitsVal (l : List Char) : Option Nat :=
  let p := spanDigits l
  if p.1 = [] then none
  else some (p.1.foldl (fun a c => a * 10 + (c.toNat - '0'.toNat)) 0)

/-- Model of `fmt.Sscanf(s, "%d", &n)`: skip leading whitespace, read an
optional sign and a nonempty run of decimal digits; trailing input is left
unread and is not an error.  `none` models a scan error, in which case the
Go variable keeps its previous value.  Integers are unbounded here; Go
errors only past the 64-bit range, which no verified property reaches. -/
def sscanfD (s : String) : Option Int :=
  match skipScanWs s.data with
  | '-' :: rest => (digitsVal rest).map (fun v => -(v : Int))
  | '+' :: rest => (digitsVal rest).map (fun v => (v : Int))
  | l => (digitsVal l).map (fun v => (v : Int))

/-- The event-count resolver `getMaxCount` (hub.go lines 146-162), taking
the raw value of the `max_count` query parameter (`r.URL.Query().Get`
returns the empty string when the parameter is missing). -/
def getMaxCount (maxCountStr : String) : Int :=
  if maxCountStr = "" then 3600
  else
    match sscanfD maxCountStr with
    | none => 3600
    | some maxCount => if maxCount ≤ 0 then 3600 else maxCount

/-- Query parameters of a request URL, as key/value pairs. -/
def Query := List (String × String)

/-- Model of `url.Values.Get`: the value of the first pair with the given
key, or the empty string when the key is absent. -/
def queryGet (q : Query) (k : String) : String :=
  match q.find? (fun p => p.1 = k) with
  | some p => p.2
  | none => ""

/-- Model of `url.Values.Set`: drop every pair with the key and bind the
key to the single new value. -/
def setParam (q : Query) (k v : String) : Query :=
  q.filter (fun p => ¬ p.1 = k) ++ [(k, v)]

/-- The query the single-shot handler passes on to the capability
(hub.go lines 186-189): the incoming query with `max_count` set to "1". -/
def restQuery (q : Query) : Query :=
  setParam q "max_count" "1"

/-- The in-memory `responseRecorder` (hub.go lines 76-106): a status code
and a body accumulated by `strings.Builder`.  Headers are not modelled (no
verified property mentions them). -/
structure responseRecorder where
  code : Int
  body : String
deriving Repr, DecidableEq

/-- What a capability can do to the recorder it is handed: `Write` appends
to the body (hub.go lines 88-91), `WriteHeader` stores the status code
(hub.go lines 93-96). -/
inductive RecorderAction where
  | write (s : String)
  | writeHeader (n : Int)
deriving Repr, DecidableEq

/-- One recorder method call. -/
def recStep (r : responseRecorder) : RecorderAction → responseRecorder
  | .write s => { r with body := r.body ++ s }
  | .writeHeader n => { r with code := n }

/-- The recorder as the single-shot handler constructs it (hub.go lines
191-196): empty body, code initialized to `http.StatusOK` = 200. -/
def initRecorder : responseRecorder :=
  { code := 200, body := "" }

/-- Recorder state after the capability's sequence of calls. -/
def runRecorder (acts : List RecorderAction) : responseRecorder :=
  acts.foldl recStep initRecorder

/-- What the single-shot handler sends to the client: the status code and
the list of body writes it performs, in order. -/
structure RestResult where
  status : Int
  writes : List String
deriving Repr, DecidableEq

/-- The single-shot ("REST") handler (hub.go lines 183-232).  The
capability is modelled by what it does to its recorder as a function of
the query it receives.  The handler forces `max_count` to "1", runs the
capability against a fresh recorder, and either relays a non-200 capture
verbatim (one `w.Write` of the captured body) or wraps the capture in the
success envelope (one `Encode`, which appends a newline). -/
def restHandler (cap : Query → List RecorderAction) (q : Query) : RestResult :=
  let rr := runRecorder (cap (restQuery q))
  if rr.code ≠ 200 then
    { status := rr.code, writes := [rr.body] }
  else
    { status := 200,
      writes := [renderEnvelope (restWrapChunk rr.body) ++ "\n"] }

/-- Observable actions of the streaming handler on the live connection:
a body write or a `Flusher.Flush`. -/
inductive Ev where
  | write (s : String)
  | flush
deriving Repr, DecidableEq

/-- The draining loop of the streaming handler (hub.go lines 269-292),
over the sequence of chunks received from the relay channel.  `marshal`
models `json.Marshal` applied to the `DataResponse` wrapping the given
value: on error the chunk is logged and skipped (`continue`), on success
the frame `data: <envelope>\n\n` is written and flushed. -/
def drainLoop (marshal : Json → Option String) : List String → List Ev
  | [] => []
  | c :: rest =>
    match marshal (sseWrapChunk c) with
    | none => drainLoop marshal rest
    | some m => Ev.write ("data: " ++ m ++ "\n\n") :: Ev.flush :: drainLoop marshal rest

/-- `json.Marshal` on a `DataResponse` holding a value decoded by
`json.Unmarshal` (or a Go string): this never fails, and produces the
success envelope. -/
def goMarshal (j : Json) : Option String :=
  some (renderEnvelope j)

/-- The body writes of a trace, in order. -/
def writesOf (t : List Ev) : List String :=
  t.filterMap (fun e => match e with | .write s => some s | .flush => none)

/-- The frame the draining loop emits for a chunk, when its envelope
marshals. -/
def frameOf (marshal : Json → Option String) (c : String) : Option String :=
  (marshal (sseWrapChunk c)).map (fun m => "data: " ++ m ++ "\n\n")

/-- Every write in the trace is immediately followed by a flush. -/
def writesFlushed : List Ev → Bool
  | [] => true
  | .flush :: rest => writesFlushed rest
  | .write _ :: .flush :: rest => writesFlushed rest
  | .write _ :: _ => false

/-- The date endpoint's own reading of `max_count` (date.go lines 41-47):
a nonempty parameter is scanned with `fmt.Sscanf`, and on a scan error the
variable keeps its zero value 0; an empty/missing parameter means 3600. -/
def dateMaxCount (q : Query) : Int :=
  let maxCountStr := queryGet q "max_count"
  if maxCountStr ≠ "" then
    match sscanfD maxCountStr with
    | some v => v
    | none => 0
  else 3600

/-- One chunk of the date endpoint: `json.Marshal(DateResponse{UTC: t})`
(date.go lines 78-83), a single-field struct in declaration order. -/
def dateChunk (t : String) : String :=
  "\x7b\"UTC\":" ++ quoteStr t ++ "\x7d"

/-- The chunks the date endpoint writes to its sink (date.go lines 63-106):
one per ticker tick while `count < maxCount`; `times` is the sequence of
clock readings at the ticks the connection lives through (a client
disconnect truncates it). -/
def dateChunks (q : Query) (times : List String) : List String :=
  (times.take (dateMaxCount q).toNat).map dateChunk

/-- Events a streaming connection to the date endpoint produces: the date
chunks relayed through the draining loop. -/
def dateStreamEvents (q : Query) (times : List String) : List Ev :=
  drainLoop goMarshal (dateChunks q times)

/-- State of the unbuffered relay channel `make(chan []byte)` (hub.go line
253) between the capability goroutine and the draining loop: the chunks
the producer has completed sending, the chunk currently in flight (a
rendezvous in progress), and the chunks the consumer has received. -/
structure RelayState where
  sent : List String
  slot : Option String
  received : List String
deriving Repr, DecidableEq

/-- Transitions of the relay channel.  A `send` can only start when no
chunk is in flight — on an unbuffered channel the producer blocks until
the consumer takes the previous chunk — and a `recv` takes the chunk in
flight. -/
inductive RelayStep : RelayState → RelayState → Prop
  | send (sent received : List String) (c : String) :
      RelayStep ⟨sent, none, received⟩ ⟨sent ++ [c], some c, received⟩
  | recv (sent received : List String) (c : String) :
      RelayStep ⟨sent, some c, received⟩ ⟨sent, none, received ++ [c]⟩

/-- States of the relay channel reachable from the initial empty state. -/
def RelayReach (s : RelayState) : Prop :=
  Relation.ReflTransGen RelayStep ⟨[], none, []⟩ s

/-- Number of chunks in flight: sent but not yet received. -/
def inFlight (s : RelayState) : Nat :=
  s.sent.length - s.received.length

/-- A heap of byte buffers, for the aliasing behaviour of
`customResponseWriter.Write`: buffers are addressed by index, `alloc`
appends a fresh buffer, `mutate` overwrites the contents at an address. -/
structure Heap where
  bufs : List (List Nat)
deriving Repr, DecidableEq

/-- Contents of the buffer at an address (empty for a dangling address). -/
def Heap.get (h : Heap) (a : Nat) : List Nat :=
  h.bufs.getD a []

/-- Allocate a fresh buffer with the given contents; returns the new heap
and the fresh address. -/
def Heap.alloc (h : Heap) (content : List Nat) : Heap × Nat :=
  (⟨h.bufs ++ [content]⟩, h.bufs.length)

/-- Overwrite the buffer at an address. -/
def Heap.mutate (h : Heap) (a : Nat) (content : List Nat) : Heap :=
  ⟨h.bufs.set a content⟩

/-- Result of one `customResponseWriter.Write` call: the heap after the
copy, the relay channel trace (addresses of chunks sent), the returned
count and the returned error. -/
structure CWResult where
  heap : Heap
  chan : List Nat
  ret : Nat
  err : Option String
deriving Repr, DecidableEq

/-- `customResponseWriter.Write` (hub.go lines 115-122): allocate a fresh
buffer, copy the argument's bytes into it (`make` + `copy`), send the
fresh buffer to the relay channel, and return `(len(b), nil)`. -/
def cwWrite (h : Heap) (chan : List Nat) (b : Nat) : CWResult :=
  let data := h.get b
  let alloc := h.alloc data
  { heap := alloc.1, chan := chan ++ [alloc.2], ret := data.length, err := none }

/-- A capability that signals an error: sets status 422 and writes a body
(used to exercise the verbatim-relay branch on a concrete input). -/
def capErr : Query → List RecorderAction :=
  fun _ => [.writeHeader 422, .write "E"]

/-- A capability that writes one chunk and never sets a status code
(used to exercise the default-status branch on a concrete input). -/
def capPlain : Query → List RecorderAction :=
  fun _ => [.write "ok"]

/-- A marshal function that fails on the envelope of the chunk "bad" and
succeeds elsewhere (used to exercise the skip-on-encode-failure branch on
a concrete input). -/
def marshalBad (j : Json) : Option String :=
  if Json.render j = quoteStr "bad" then none else some (renderEnvelope j)

/-- A filtered-out key is never found again. -/
theorem find?_filter_ne (q : Query) (k : String) :
    (q.filter (fun p => ¬ p.1 = k)).find? (fun p => p.1 = k) = none := by
  rw [List.find?_eq_none]
  intro x hx
  have := (List.mem_filter.mp hx).2
  simpa using this

/-- Setting a query parameter makes `Get` return the new value. -/
theorem queryGet_setParam (q : Query) (k v : String) :
    queryGet (setParam q k v) k = v := by
  unfold queryGet setParam
  rw [List.find?_append, find?_filter_ne]
  simp [List.find?]

/-- C2: the event-count resolver returns 3600 on an empty/missing value,
3600 on a scan error, 3600 on a nonpositive scanned value, and the scanned
value itself when it is positive. -/
theorem getMaxCount_contract (s : String) :
    (s = "" → getMaxCount s = 3600)
    ∧ (sscanfD s = none → getMaxCount s = 3600)
    ∧ (∀ v : Int, sscanfD s = some v → v ≤ 0 → getMaxCount s = 3600)
    ∧ (∀ v : Int, sscanfD s = some v → 0 < v → getMaxCount s = v) := by
  refine ⟨fun h => by simp [getMaxCount, h], fun h => ?_, fun v hv hle => ?_, fun v hv hpos => ?_⟩
  · by_cases hs : s = "" <;> simp [getMaxCount, hs, h]
  · by_cases hs : s = "" <;> simp [getMaxCount, hs, hv, hle]
  · by_cases hs : s = ""
    · rw [hs] at hv
      exact absurd hv (by simp [sscanfD, skipScanWs, digitsVal, spanDigits])
    · simp [getMaxCount, hs, hv, Int.not_le.mpr hpos]

/-- Concrete instance of the resolver contract: "5" scans to 5 > 0 and
resolves to 5. -/
theorem getMaxCount_contract_witness :
    sscanfD "5" = some 5 ∧ getMaxCount "5" = 5 :=
  ⟨by decide, (getMaxCount_contract "5").2.2.2 5 (by decide) (by decide)⟩

/-- C3: success wrapping auto-detects JSON on both paths: a chunk that
parses becomes the parsed value in the `data` field, a chunk that does not
parse becomes a literal string, and the empty captured buffer yields the
envelope with an empty-string `data`. -/
theorem wrapChunk_contract (s : String) :
    (∀ j : Json, Json.parse s = some j → restWrapChunk s = j ∧ sseWrapChunk s = j)
    ∧ (Json.parse s = none → restWrapChunk s = Json.str s ∧ sseWrapChunk s = Json.str s)
    ∧ renderEnvelope (restWrapChunk "") = "\x7b\"data\":\"\"\x7d"
    ∧ renderEnvelope (sseWrapChunk "") = "\x7b\"data\":\"\"\x7d" := by
  refine ⟨fun j h => ?_, fun h => ?_, rfl, rfl⟩
  · constructor <;> simp [restWrapChunk, sseWrapChunk, h]
  · constructor <;> simp [restWrapChunk, sseWrapChunk, h]

/-- Concrete instance of the wrapping contract: the plain-text chunk "ok"
does not parse and is embedded as a literal string on both paths. -/
theorem wrapChunk_contract_witness :
    Json.parse "ok" = none
    ∧ restWrapChunk "ok" = Json.str "ok"
    ∧ sseWrapChunk "ok" = Json.str "ok" :=
  ⟨rfl, ((wrapChunk_contract "ok").2.1 rfl).1, ((wrapChunk_contract "ok").2.1 rfl).2⟩

/-- C1: on the single-shot path the dispatcher forces `max_count` to "1"
before invoking the capability — whatever query the client supplied, the
capability sees the parameter "1", which resolves to an event-limit of
exactly 1 — and the handler performs exactly one body write (one
envelope). -/
theorem restHandler_forces_limit_one (cap : Query → List RecorderAction) (q : Query) :
    queryGet (restQuery q) "max_count" = "1"
    ∧ getMaxCount (queryGet (restQuery q) "max_count") = 1
    ∧ (restHandler cap q).writes.length = 1 := by
  have h1 : queryGet (restQuery q) "max_count" = "1" := queryGet_setParam q _ _
  refine ⟨h1, by rw [h1]; decide, ?_⟩
  unfold restHandler
  by_cases hc : (runRecorder (cap (restQuery q))).code ≠ 200 <;> simp [hc]

/-- C7: on the single-shot path, a captured status other than 200 makes
the dispatcher relay the captured body and status verbatim, with no
envelope wrapping. -/
theorem restHandler_error_verbatim (cap : Query → List RecorderAction) (q : Query)
    (h : (runRecorder (cap (restQuery q))).code ≠ 200) :
    restHandler cap q =
      { status := (runRecorder (cap (restQuery q))).code,
        writes := [(runRecorder (cap (restQuery q))).body] } := by
  unfold restHandler
  simp [h]

/-- Concrete instance of verbatim error relay: a capability that sets
status 422 and writes "E" has exactly that status and body relayed. -/
theorem restHandler_error_verbatim_witness :
    (runRecorder (capErr (restQuery []))).code ≠ 200
    ∧ restHandler capErr [] =
      { status := (runRecorder (capErr (restQuery []))).code,
        writes := [(runRecorder (capErr (restQuery []))).body] } :=
  ⟨by decide, restHandler_error_verbatim capErr [] (by decide)⟩

/-- The recorder's status code survives any action sequence that contains
no `WriteHeader` call. -/
theorem foldl_recStep_code (acts : List RecorderAction) (r : responseRecorder)
    (h : ∀ n : Int, RecorderAction.writeHeader n ∉ acts) :
    (acts.foldl recStep r).code = r.code := by
  induction acts generalizing r with
  | nil => rfl
  | cons a tl ih =>
    match a with
    | .write s =>
      rw [List.foldl_cons]
      exact ih { r with body := r.body ++ s } (fun n hn => h n (List.mem_cons_of_mem _ hn))
    | .writeHeader n => exact absurd (List.mem_cons_self _ _) (h n)

/-- C10: the single-shot recorder starts at status 200, so a capability
that only writes chunks and never sets a status is treated as successful
and has its output wrapped in the success envelope, never relayed as an
error. -/
theorem restHandler_default_success (cap : Query → List RecorderAction) (q : Query)
    (h : ∀ n : Int, RecorderAction.writeHeader n ∉ cap (restQuery q)) :
    (runRecorder (cap (restQuery q))).code = 200
    ∧ restHandler cap q =
      { status := 200,
        writes := [renderEnvelope (restWrapChunk (runRecorder (cap (restQuery q))).body) ++ "\n"] } := by
  have hc : (runRecorder (cap (restQuery q))).code = 200 :=
    foldl_recStep_code (cap (restQuery q)) initRecorder h
  refine ⟨hc, ?_⟩
  unfold restHandler
  simp [hc]

/-- Concrete instance of the default-status behaviour: a capability that
writes "ok" and never calls `WriteHeader` is wrapped as a success. -/
theorem restHandler_default_success_witness :
    (runRecorder (capPlain (restQuery []))).code = 200
    ∧ restHandler capPlain [] =
      { status := 200,
        writes := [renderEnvelope (restWrapChunk (runRecorder (capPlain (restQuery []))).body) ++ "\n"] } :=
  restHandler_default_success capPlain []
    (fun n hn => by simp [capPlain] at hn)

/-- C5: the draining loop forwards chunks in exactly the order the
capability wrote them — its body writes are, in order, precisely the
frames of the successfully encoded chunks, one frame
`data: <envelope>\n\n` per chunk with no reordering or batching — and
every write is immediately followed by a flush. -/
theorem drainLoop_ordered_framed_flushed (marshal : Json → Option String)
    (chunks : List String) :
    writesOf (drainLoop marshal chunks) = chunks.filterMap (frameOf marshal)
    ∧ writesFlushed (drainLoop marshal chunks) = true := by
  induction chunks with
  | nil => exact ⟨rfl, rfl⟩
  | cons c rest ih =>
    obtain ⟨ih1, ih2⟩ := ih
    cases h : marshal (sseWrapChunk c) with
    | none =>
      refine ⟨?_, ?_⟩
      · simpa [drainLoop, h, frameOf, writesOf, List.filterMap_cons] using ih1
      · simpa [drainLoop, h, writesFlushed] using ih2
    | some m =>
      refine ⟨?_, ?_⟩
      · simpa [drainLoop, h, frameOf, writesOf, List.filterMap_cons] using ih1
      · simpa [drainLoop, h, writesFlushed] using ih2

/-- C8: a chunk whose envelope fails to encode is dropped and the
draining loop continues with the remaining chunks; a single failing chunk
never terminates the stream. -/
theorem drainLoop_skips_bad_chunk (marshal : Json → Option String)
    (pre : List String) (bad : String) (post : List String)
    (h : marshal (sseWrapChunk bad) = none) :
    drainLoop marshal (pre ++ bad :: post) =
      drainLoop marshal pre ++ drainLoop marshal post := by
  induction pre with
  | nil => simp [drainLoop, h]
  | cons c rest ih =>
    cases hm : marshal (sseWrapChunk c) <;> simp [drainLoop, hm, ih]

/-- Concrete instance of chunk skipping: with a marshal that fails exactly
on the chunk "bad", the stream over x, bad, y is the stream over x
followed by the stream over y, so the frame for y is still produced. -/
theorem drainLoop_skips_bad_chunk_witness :
    marshalBad (sseWrapChunk "bad") = none
    ∧ drainLoop marshalBad (["x"] ++ "bad" :: ["y"]) =
        drainLoop marshalBad ["x"] ++ drainLoop marshalBad ["y"]
    ∧ (writesOf (drainLoop marshalBad (["x"] ++ "bad" :: ["y"]))).length = 2 :=
  ⟨rfl, drainLoop_skips_bad_chunk marshalBad ["x"] "bad" ["y"] rfl, rfl⟩

/-- With the never-failing real marshal, the draining loop emits exactly
one frame per chunk. -/
theorem writesOf_drain_goMarshal (cs : List String) :
    (writesOf (drainLoop goMarshal cs)).length = cs.length := by
  induction cs with
  | nil => rfl
  | cons c rest ih =>
    simpa [drainLoop, goMarshal, writesOf, List.filterMap_cons] using ih

/-- C4: for a streaming request whose `max_count` scans to a positive k,
the date capability observes an effective event-limit of exactly k, and
the client receives at most k framed events on that connection. -/
theorem dateStream_respects_limit (q : Query) (k : Int) (times : List String)
    (hs : sscanfD (queryGet q "max_count") = some k) (_hk : 0 < k) :
    dateMaxCount q = k
    ∧ (writesOf (dateStreamEvents q times)).length ≤ k.toNat := by
  have hne : ¬ queryGet q "max_count" = "" := by
    intro h
    rw [h] at hs
    exact absurd hs (by simp [sscanfD, skipScanWs, digitsVal, spanDigits])
  have hmc : dateMaxCount q = k := by
    simp [dateMaxCount, hne, hs]
  refine ⟨hmc, ?_⟩
  rw [dateStreamEvents, writesOf_drain_goMarshal, dateChunks, hmc,
    List.length_map]
  exact List.length_take_le _ _

/-- Concrete instance of the streaming limit: `max_count=2` over three
ticks yields limit 2 and at most two frames. -/
theorem dateStream_respects_limit_witness :
    sscanfD (queryGet [("max_count", "2")] "max_count") = some 2
    ∧ dateMaxCount [("max_count", "2")] = 2
    ∧ (writesOf (dateStreamEvents [("max_count", "2")] ["t1", "t2", "t3"])).length
        ≤ (2 : Int).toNat := by
  have h := dateStream_respects_limit [("max_count", "2")] 2 ["t1", "t2", "t3"]
    (by decide) (by decide)
  exact ⟨by decide, h.1, h.2⟩

/-- C6: on every streaming connection the unbuffered relay channel holds
at most one chunk in flight in every reachable state — the chunks received
are exactly the chunks sent minus the at-most-one chunk in the rendezvous
slot — and a send can only fire from a state whose slot is empty, i.e. the
producer blocks until the draining loop has taken the previous chunk. -/
theorem relay_at_most_one_in_flight (s : RelayState) (h : RelayReach s) :
    s.sent = s.received ++ s.slot.toList
    ∧ inFlight s ≤ 1
    ∧ (∀ t u : RelayState, RelayStep t u → u.sent ≠ t.sent → t.slot = none) := by
  have hinv : s.sent = s.received ++ s.slot.toList := by
    induction h with
    | refl => rfl
    | tail _ hstep ih =>
      cases hstep with
      | send sent received c =>
        simp only [Option.toList] at ih ⊢
        simp at ih
        simp [ih]
      | recv sent received c =>
        simp only [Option.toList] at ih ⊢
        simp [ih]
  refine ⟨hinv, ?_, ?_⟩
  · rw [inFlight, hinv]
    cases s.slot <;> simp [Option.toList]
  · intro t u hstep hne
    cases hstep with
    | send sent received c => rfl
    | recv sent received c => exact absurd rfl hne

/-- Concrete instance of the relay invariant, at the reachable state in
which one chunk has been sent and sits in the rendezvous slot. -/
theorem relay_at_most_one_in_flight_witness :
    RelayReach ⟨["a"], some "a", []⟩ ∧ inFlight ⟨["a"], some "a", []⟩ ≤ 1 :=
  have hr : RelayReach ⟨["a"], some "a", []⟩ :=
    Relation.ReflTransGen.single (RelayStep.send [] [] "a")
  ⟨hr, (relay_at_most_one_in_flight ⟨["a"], some "a", []⟩ hr).2.1⟩

/-- C9: `customResponseWriter.Write` returns the argument's length and a
nil error, appends exactly one freshly allocated buffer address to the
relay channel, the fresh buffer holds a copy of the argument's bytes, and
mutating the argument's buffer afterwards does not alter the chunk the
draining loop receives. -/
theorem cwWrite_fresh_copy (h : Heap) (tr : List Nat) (b : Nat) (nc : List Nat)
    (hb : b < h.bufs.length) :
    (cwWrite h tr b).ret = (h.get b).length
    ∧ (cwWrite h tr b).err = none
    ∧ (cwWrite h tr b).chan = tr ++ [h.bufs.length]
    ∧ (cwWrite h tr b).heap.get h.bufs.length = h.get b
    ∧ ((cwWrite h tr b).heap.mutate b nc).get h.bufs.length = h.get b := by
  refine ⟨rfl, rfl, rfl, ?_, ?_⟩
  · show (⟨h.bufs ++ [h.get b]⟩ : Heap).get h.bufs.length = h.get b
    simp [Heap.get, List.getD, List.getElem?_append_right]
  · show (⟨(h.bufs ++ [h.get b]).set b nc⟩ : Heap).get h.bufs.length = h.get b
    rw [Heap.get]
    rw [List.set_append_left _ _ hb]
    simp [List.getD, List.getElem?_append_right]

/-- Concrete instance of the fresh-copy behaviour: writing buffer 0 of a
one-buffer heap and then overwriting buffer 0 leaves the sent chunk
intact. -/
theorem cwWrite_fresh_copy_witness :
    (cwWrite ⟨[[1, 2]]⟩ [] 0).ret = 2
    ∧ (cwWrite ⟨[[1, 2]]⟩ [] 0).err = none
    ∧ ((cwWrite ⟨[[1, 2]]⟩ [] 0).heap.mutate 0 [9]).get 1 = [1, 2] :=
  have h := cwWrite_fresh_copy ⟨[[1, 2]]⟩ [] 0 [9] (by decide)
  ⟨h.1, h.2.1, h.2.2.2.2⟩
